import Mathlib

/-!
Formal model of the polanalyser core (demosaicing.py and stokes.py).

Demosaicing pipeline: pixel samples are modelled as exact rationals
(uint8/uint16 samples are naturals embedded in ℚ; the floating-point
rescale path is modelled with exact rational arithmetic).  The Bayer
debayer primitive (OpenCV `cv2.cvtColor` with a Bayer conversion code)
is an external collaborator; it is a parameter of the model, and the
contracts the spec assigns to it (same spatial size, output values in
the uint16 range) appear as explicit hypotheses.

Stokes pipeline: pixel values are real numbers; the per-pixel kernels
of stokes.py are modelled over ℝ, and the degenerate-division
behaviour of the DoLP kernel is modelled with an extended value type
mirroring IEEE/NumPy division by zero (inf / nan), which NumPy emits
instead of raising.
-/

namespace Polanalyser

/-- NumPy dtype classes distinguished by `demosaicing`: the two
supported unsigned-integer widths, the floating-point class
(`np.issubdtype(dtype, np.floating)`), and `otherInt` standing for any
remaining dtype (e.g. `np.int32`), which is rejected. -/
inductive Dtype where
  | uint8
  | uint16
  | floating
  | otherInt
deriving DecidableEq

/-- A single-channel image: spatial size plus a total pixel-value
function (reads outside the declared size are irrelevant to every
result below, mirroring a NumPy array's in-bounds data). -/
structure Image (α : Type) where
  height : Nat
  width : Nat
  data : Nat → Nat → α

/-- A 3-channel (B, G, R) image, as produced by a debayer call. -/
abbrev Image3 := Image (ℚ × ℚ × ℚ)

/-- Blue channel: index 0 of `cv2.split` on a BGR image. -/
def bChannel (img : Image3) : Image ℚ :=
  ⟨img.height, img.width, fun i j => (img.data i j).1⟩

/-- Green channel: index 1 of `cv2.split` on a BGR image. -/
def gChannel (img : Image3) : Image ℚ :=
  ⟨img.height, img.width, fun i j => (img.data i j).2.1⟩

/-- Red channel: index 2 of `cv2.split` on a BGR image. -/
def rChannel (img : Image3) : Image ℚ :=
  ⟨img.height, img.width, fun i j => (img.data i j).2.2⟩

/-- The two Bayer pattern origins used by demosaicing.py:
`cv2.COLOR_BayerBG2BGR*` and `cv2.COLOR_BayerGR2BGR*`. -/
inductive BayerPattern where
  | BG
  | GR

/-- Interpolation variant, i.e. the OpenCV conversion-code suffix:
`""` (bilinear), `"_VNG"`, `"_EA"`. -/
inductive Suffix where
  | bilinear
  | vng
  | ea

/-- The external debayer primitive (`cv2.cvtColor` with a Bayer code):
given a variant, a pattern origin and a single-channel mosaic, it
returns a 3-channel BGR image.  demosaicing.py treats it as a black
box; the model is parametric in it. -/
abbrev Debayer := Suffix → BayerPattern → Image ℚ → Image3

/-- Contract of the debayer collaborator (spec section 6): the output
has the same spatial size as the input. -/
def PreservesShape (d : Debayer) : Prop :=
  ∀ s p img, (d s p img).height = img.height ∧ (d s p img).width = img.width

/-- A rational sample lies in the uint16 value range. -/
def InU16Range (q : ℚ) : Prop := 0 ≤ q ∧ q ≤ 65535

/-- Contract of the debayer collaborator on values: invoked on a
uint16 (or uint8) array it returns an array of the same unsigned
dtype, so every output sample lies in the uint16 range. -/
def OutputBounded (d : Debayer) : Prop :=
  ∀ s p img i j,
    InU16Range ((d s p img).data i j).1 ∧
    InU16Range ((d s p img).data i j).2.1 ∧
    InU16Range ((d s p img).data i j).2.2

/-- The `ColorConversionCode` dataclass of demosaicing.py. -/
structure ColorConversionCode where
  is_color : Bool
  suffix : Suffix

/-- The Python argument passed for `code`: either an actual
`ColorConversionCode` instance, or any other Python object
(`invalid`), which the `isinstance` check rejects. -/
inductive CodeArg where
  | valid (code : ColorConversionCode)
  | invalid

/-- The exceptions demosaicing.py raises: `TypeError` on a bad `code`
argument, `TypeError` on an unsupported dtype, `ValueError` on a
non-2-D input (the spec calls the latter two `TypeKindError` and
`ShapeError`). -/
inductive DemosaicError where
  | codeTypeError
  | dtypeError
  | shapeError
deriving DecidableEq

/-- A NumPy ndarray: a shape, a dtype tag, and a total function from
multi-indices to (exact) sample values. -/
structure NDArray where
  shape : List Nat
  dtype : Dtype
  data : List Nat → ℚ

/-- `__demosaicing_mono`: two full-image debayer passes, one with the
"BG" pattern and one with the "GR" pattern; `cv2.split` each BGR
result and keep the blue and red channels, discarding green:
`img_000, _, img_090 = cv2.split(img_debayer_bg)` and
`img_045, _, img_135 = cv2.split(img_debayer_gr)`; the returned list
is `[img_000, img_045, img_090, img_135]`. -/
def demosaicingMono (d : Debayer) (s : Suffix) (img : Image ℚ) : List (Image ℚ) :=
  [bChannel (d s .BG img), bChannel (d s .GR img),
   rChannel (d s .BG img), rChannel (d s .GR img)]

/-- The strided sub-image `img[j::2, i::2]` (NumPy slicing): size is
the number of indices `j + 2*r < height` (resp. width). -/
def subImage (img : Image ℚ) (j i : Nat) : Image ℚ :=
  ⟨(img.height - j + 1) / 2, (img.width - i + 1) / 2,
   fun r c => img.data (j + 2 * r) (i + 2 * c)⟩

/-- Stage 1 of `__demosaicing_color`: each of the four 2×2
sub-positions `(j, i)` is down-sampled (`img[j::2, i::2]`),
color-debayered with the "BG" pattern, and written back to the strided
positions of a full-resolution `(height, width, 3)` buffer; reading
position `(r, c)` therefore yields the debayer output for sub-position
`(r % 2, c % 2)` at `(r / 2, c / 2)`. -/
def mpfaBGR (d : Debayer) (s : Suffix) (img : Image ℚ) : Image3 :=
  ⟨img.height, img.width,
   fun r c => (d s .BG (subImage img (r % 2) (c % 2))).data (r / 2) (c / 2)⟩

/-- Default image used only as the (never-reached) `List.getD`
fallback when destructuring the 4-element result of
`__demosaicing_mono`. -/
def zeroImage : Image ℚ := ⟨0, 0, fun _ _ => 0⟩

/-- The `k`-th orientation image of a `__demosaicing_mono` result
(the Python code destructures the 4-element list). -/
def orient (l : List (Image ℚ)) (k : Nat) : Image ℚ := l.getD k zeroImage

/-- One orientation buffer of stage 2 of `__demosaicing_color`
(`img_bgr_000` … `img_bgr_135`): a `(height, width, 3)` image whose
channel `i` holds plane `i`'s `__demosaicing_mono` output for
orientation `k`, where the planes are the `cv2.split` of the stage-1
BGR buffer. -/
def colorOrient (d : Debayer) (s : Suffix) (img : Image ℚ) (k : Nat) : Image3 :=
  ⟨img.height, img.width, fun r c =>
    ((orient (demosaicingMono d s (bChannel (mpfaBGR d s img))) k).data r c,
     (orient (demosaicingMono d s (gChannel (mpfaBGR d s img))) k).data r c,
     (orient (demosaicingMono d s (rChannel (mpfaBGR d s img))) k).data r c)⟩

/-- Stage 2 of `__demosaicing_color`: split the stage-1 BGR buffer
into its three planes, run `__demosaicing_mono` on each plane, and
reassemble, per orientation, a `(height, width, 3)` image whose
channel `i` is plane `i`'s result for that orientation; the returned
list is `[img_bgr_000, img_bgr_045, img_bgr_090, img_bgr_135]`. -/
def demosaicingColor (d : Debayer) (s : Suffix) (img : Image ℚ) : List Image3 :=
  [colorOrient d s img 0, colorOrient d s img 1,
   colorOrient d s img 2, colorOrient d s img 3]

/-- View a 2-D ndarray (shape `[h, w]`) as an `Image`. -/
def imageOf (a : NDArray) (h w : Nat) : Image ℚ :=
  ⟨h, w, fun i j => a.data [i, j]⟩

/-- Wrap a single-channel result back into an ndarray of shape
`[height, width]`; the dtype is the one of the processed input
(`cv2.cvtColor` preserves the unsigned dtype). -/
def monoToNDArray (dt : Dtype) (im : Image ℚ) : NDArray :=
  ⟨[im.height, im.width], dt, fun idx =>
    match idx with
    | [i, j] => im.data i j
    | _ => 0⟩

/-- Wrap a 3-channel result back into an ndarray of shape
`[height, width, 3]`. -/
def colorToNDArray (dt : Dtype) (im : Image3) : NDArray :=
  ⟨[im.height, im.width, 3], dt, fun idx =>
    match idx with
    | [i, j, 0] => (im.data i j).1
    | [i, j, 1] => (im.data i j).2.1
    | [i, j, 2] => (im.data i j).2.2
    | _ => 0⟩

/-- The integer part of `demosaicing` (lines after the floating-point
branch): reject dtypes outside `{uint8, uint16}` (`TypeError`), reject
non-2-D inputs (`ValueError`), then dispatch on `code.is_color` to
`__demosaicing_color` or `__demosaicing_mono`. -/
def demosaicingUint (d : Debayer) (a : NDArray) (code : ColorConversionCode) :
    Except DemosaicError (List NDArray) :=
  if a.dtype = Dtype.uint8 ∨ a.dtype = Dtype.uint16 then
    match a.shape with
    | [h, w] =>
      if code.is_color then
        .ok ((demosaicingColor d code.suffix (imageOf a h w)).map (colorToNDArray a.dtype))
      else
        .ok ((demosaicingMono d code.suffix (imageOf a h w)).map (monoToNDArray a.dtype))
    | _ => .error .shapeError
  else
    .error .dtypeError

/-- All multi-indices of an ndarray shape (row-major enumeration). -/
def indicesOf : List Nat → List (List Nat)
  | [] => [[]]
  | n :: rest => (List.range n).flatMap (fun i => (indicesOf rest).map (fun t => i :: t))

/-- `np.max` over the whole array (0 on an empty index set; the claims
about the floating path always assume a positive maximum). -/
def maxVal (a : NDArray) : ℚ :=
  ((indicesOf a.shape).map a.data).foldr max 0

/-- The public entry point `demosaicing`: `isinstance` check on
`code`, then the floating-point branch (rescale by
`65535 / np.max(img)`, clip to `[0, 65535]`, truncate to uint16,
demosaic, rescale back and cast to the original dtype — the Python
self-call is unrolled once, as the rescaled array is uint16), then the
integer path.  NumPy's `65535.0 / 0.0 = inf` degenerate case is not
modelled (rational division yields 0 there); every statement about the
floating branch assumes `0 < maxVal`. -/
def demosaicing (d : Debayer) (a : NDArray) (c : CodeArg) :
    Except DemosaicError (List NDArray) :=
  match c with
  | .invalid => .error .codeTypeError
  | .valid code =>
    if a.dtype = Dtype.floating then
      let scale : ℚ := 65535 / maxVal a
      let u16 : NDArray :=
        ⟨a.shape, .uint16, fun idx => ((⌊min (max (a.data idx * scale) 0) 65535⌋ : ℤ) : ℚ)⟩
      (demosaicingUint d u16 code).map
        (fun l => l.map (fun b => ⟨b.shape, a.dtype, fun idx => b.data idx / scale⟩))
    else
      demosaicingUint d a code

/-! ### Stokes engine (stokes.py), over ℝ -/

open Matrix in
/-- `calcStokes(I, M)`: `A = M[..., 0, :]` (the stack of Mueller-matrix
first rows, one per acquisition), `A_pinv = np.linalg.pinv(A)` (the
pseudo-inverse primitive is an external dense-linear-algebra
collaborator, hence a parameter; its Moore–Penrose contract appears as
a hypothesis of the theorems), then
`S = np.tensordot(A_pinv, I, axes=(1,-1))` followed by `np.moveaxis`:
per pixel, `S p = A_pinv *ᵥ I p`.  `ι` is the pixel index set, `m` the
number of acquisitions, `n` the number of Stokes components. -/
def calcStokes {ι : Type} {m n : ℕ} [NeZero n]
    (pinv : Matrix (Fin m) (Fin n) ℝ → Matrix (Fin n) (Fin m) ℝ)
    (I : ι → Fin m → ℝ) (M : Fin m → Matrix (Fin n) (Fin n) ℝ) :
    ι → Fin n → ℝ :=
  let A : Matrix (Fin m) (Fin n) ℝ := Matrix.of fun k j => M k 0 j
  let P := pinv A
  fun p => P.mulVec (I p)

/-- `M[..., 0, :]`: the measurement matrix built from the first rows of
the per-acquisition Mueller matrices. -/
def firstRows {m n : ℕ} [NeZero n] (M : Fin m → Matrix (Fin n) (Fin n) ℝ) :
    Matrix (Fin m) (Fin n) ℝ :=
  Matrix.of fun k j => M k 0 j

open Matrix in
/-- The four Penrose equations: `P` is the Moore–Penrose
pseudo-inverse of `A`.  This is the documented contract of
`np.linalg.pinv`. -/
def IsMoorePenrose {m n : ℕ} (A : Matrix (Fin m) (Fin n) ℝ)
    (P : Matrix (Fin n) (Fin m) ℝ) : Prop :=
  A * P * A = A ∧ P * A * P = P ∧ (A * P)ᵀ = A * P ∧ (P * A)ᵀ = P * A

/-- Squared Euclidean norm of a vector, `∑ i, v i * v i`. -/
def sqNorm {m : ℕ} (v : Fin m → ℝ) : ℝ := Matrix.dotProduct v v

/-- Modelled from the spec: the linear-polarizer Mueller-matrix model
`mueller.polarizer` (the module `polanalyser/mueller.py` is not part
of the given sources).  Per the spec it is the closed-form Malus-law
expansion whose first row is `[1, cos 2θ, sin 2θ]` (the spec's
linear-fit consistency property fixes the scaling factor to 1), with
zero circular-polarization column/row. -/
noncomputable def polarizer (θ : ℝ) : Matrix (Fin 4) (Fin 4) ℝ :=
  ![![1, Real.cos (2 * θ), Real.sin (2 * θ), 0],
    ![Real.cos (2 * θ), Real.cos (2 * θ) ^ 2, Real.cos (2 * θ) * Real.sin (2 * θ), 0],
    ![Real.sin (2 * θ), Real.cos (2 * θ) * Real.sin (2 * θ), Real.sin (2 * θ) ^ 2, 0],
    ![0, 0, 0, 0]]

/-- The `[..., :3, :3]` truncation to the linear 3×3 sub-block. -/
def truncate3 (M : Matrix (Fin 4) (Fin 4) ℝ) : Matrix (Fin 3) (Fin 3) ℝ :=
  M.submatrix (Fin.castLE (by omega)) (Fin.castLE (by omega))

/-- `calcLinearStokes(I, theta)`: build
`M = polarizer(theta)[..., :3, :3]` and delegate to `calcStokes`. -/
noncomputable def calcLinearStokes {ι : Type} {m : ℕ}
    (pinv : Matrix (Fin m) (Fin 3) ℝ → Matrix (Fin 3) (Fin m) ℝ)
    (I : ι → Fin m → ℝ) (θ : Fin m → ℝ) : ι → Fin 3 → ℝ :=
  calcStokes pinv I (fun k => truncate3 (polarizer (θ k)))

/-- The four polarizer angles 0°, 45°, 90°, 135°, in radians. -/
noncomputable def linAngles : Fin 4 → ℝ :=
  ![0, Real.pi / 4, Real.pi / 2, 3 * Real.pi / 4]

/-- A Stokes-vector image: one length-3 real vector per pixel (the
trailing axis of the `(height, width, 3)` NumPy array). -/
abbrev StokesImage (ι : Type) := ι → Fin 3 → ℝ

/-- `cvtStokesToImax`: per pixel `(S0 + sqrt(S1² + S2²)) * 0.5`. -/
noncomputable def cvtStokesToImax {ι : Type} (img : StokesImage ι) : ι → ℝ :=
  fun p => (img p 0 + Real.sqrt (img p 1 ^ 2 + img p 2 ^ 2)) * 0.5

/-- `cvtStokesToImin`: per pixel `(S0 - sqrt(S1² + S2²)) * 0.5`. -/
noncomputable def cvtStokesToImin {ι : Type} (img : StokesImage ι) : ι → ℝ :=
  fun p => (img p 0 - Real.sqrt (img p 1 ^ 2 + img p 2 ^ 2)) * 0.5

/-- `cvtStokesToIntensity`: per pixel `S0 * 0.5`. -/
noncomputable def cvtStokesToIntensity {ι : Type} (img : StokesImage ι) : ι → ℝ :=
  fun p => img p 0 * 0.5

/-- `cvtStokesToSpecular`: per pixel `sqrt(S1² + S2²)`. -/
noncomputable def cvtStokesToSpecular {ι : Type} (img : StokesImage ι) : ι → ℝ :=
  fun p => Real.sqrt (img p 1 ^ 2 + img p 2 ^ 2)

/-- `np.arctan2`, with the standard quadrant-corrected definition and
range `(-π, π]` (the exact value is irrelevant to the range claim,
which only depends on the `mod`). -/
noncomputable def arctan2 (y x : ℝ) : ℝ :=
  if 0 < x then Real.arctan (y / x)
  else if x < 0 then
    (if 0 ≤ y then Real.arctan (y / x) + Real.pi else Real.arctan (y / x) - Real.pi)
  else
    (if 0 < y then Real.pi / 2 else if y < 0 then -(Real.pi / 2) else 0)

/-- `np.mod(x, p) = x - p * floor(x / p)` (real remainder with the
sign of the modulus). -/
noncomputable def fmod (x p : ℝ) : ℝ := x - p * (⌊x / p⌋ : ℤ)

/-- `cvtStokesToAoLP`: per pixel `np.mod(0.5 * np.arctan2(S2, S1), np.pi)`. -/
noncomputable def cvtStokesToAoLP {ι : Type} (img : StokesImage ι) : ι → ℝ :=
  fun p => fmod (0.5 * arctan2 (img p 2) (img p 1)) Real.pi

/-- An IEEE-style extended value, mirroring how NumPy float kernels
report degenerate divisions: a finite number, `nan`, `+inf`, `-inf`. -/
inductive FVal where
  | num : ℝ → FVal
  | nan
  | pinf
  | ninf

/-- Whether an extended value is finite. -/
def FVal.finite? : FVal → Bool
  | .num _ => true
  | _ => false

/-- NumPy float division restricted to finite operands: `0/0` is
`nan`, `x/0` for `x ≠ 0` is a signed infinity, otherwise ordinary real
division; a warning, never an exception, accompanies the degenerate
cases.  (The DoLP kernel below only ever divides finite operands.) -/
noncomputable def fdiv : FVal → FVal → FVal
  | .num x, .num y =>
    if y = 0 then (if x = 0 then .nan else if 0 < x then .pinf else .ninf)
    else .num (x / y)
  | _, _ => .nan

/-- `cvtStokesToDoLP`: per pixel `sqrt(S1² + S2²) / S0`, with NumPy's
non-raising division semantics made explicit. -/
noncomputable def cvtStokesToDoLP {ι : Type} (img : StokesImage ι) : ι → FVal :=
  fun p => fdiv (.num (Real.sqrt (img p 1 ^ 2 + img p 2 ^ 2))) (.num (img p 0))

/-! ### Concrete instances used by the witnesses -/

/-- A trivial debayer instance (constant zero output of the input's
size); it satisfies both collaborator contracts. -/
def d0 : Debayer := fun _ _ img => ⟨img.height, img.width, fun _ _ => (0, 0, 0)⟩

/-- A concrete 2×2 uint8 mosaic. -/
def a0 : NDArray := ⟨[2, 2], .uint8, fun _ => 0⟩

/-- A concrete 2×2 floating-point frame with all samples 1. -/
def aF : NDArray := ⟨[2, 2], .floating, fun _ => 1⟩

/-- The measurement matrix `[1, cos 2θ, sin 2θ]` rows for the four
angles 0°, 45°, 90°, 135°, written out numerically. -/
noncomputable def Alin : Matrix (Fin 4) (Fin 3) ℝ :=
  !![1, 1, 0; 1, 0, 1; 1, -1, 0; 1, 0, -1]

/-- The Moore–Penrose pseudo-inverse of `Alin`, written out
numerically (used by the consistency witness). -/
noncomputable def AlinPinv : Matrix (Fin 3) (Fin 4) ℝ :=
  !![1/4, 1/4, 1/4, 1/4; 1/2, 0, -(1/2), 0; 0, 1/2, 0, -(1/2)]

theorem d0_preserves_shape : PreservesShape d0 :=
  fun _ _ _ => ⟨rfl, rfl⟩

theorem d0_output_bounded : OutputBounded d0 := by
  intro s p img i j
  refine ⟨⟨?_, ?_⟩, ⟨?_, ?_⟩, ⟨?_, ?_⟩⟩ <;> norm_num [d0]

/-! ### Theorems: demosaicing -/

/-- Every image of a `__demosaicing_mono` result has in-range samples
whenever the debayer collaborator outputs in-range samples. -/
theorem demosaicingMono_bounded {d : Debayer} (hd : OutputBounded d) (s : Suffix)
    (img : Image ℚ) :
    ∀ im ∈ demosaicingMono d s img, ∀ i j, InU16Range (im.data i j) := by
  intro im him i j
  simp only [demosaicingMono, List.mem_cons, List.not_mem_nil, or_false] at him
  rcases him with h | h | h | h <;> subst h
  · exact (hd s .BG img i j).1
  · exact (hd s .GR img i j).1
  · exact (hd s .BG img i j).2.2
  · exact (hd s .GR img i j).2.2

/-- The `k`-th orientation image extracted from a
`__demosaicing_mono` result has in-range samples. -/
theorem orient_bounded {d : Debayer} (hd : OutputBounded d) (s : Suffix)
    (img : Image ℚ) (k : Nat) (i j : Nat) :
    InU16Range ((orient (demosaicingMono d s img) k).data i j) := by
  match k with
  | 0 => exact (hd s .BG img i j).1
  | 1 => exact (hd s .GR img i j).1
  | 2 => exact (hd s .BG img i j).2.2
  | 3 => exact (hd s .GR img i j).2.2
  | (n + 4) =>
    simp only [orient, demosaicingMono, List.getD, List.get?_eq_getElem?]
    constructor <;> norm_num [zeroImage]

/-- The sample 0 is in the uint16 range. -/
theorem zero_in_u16 : InU16Range 0 :=
  ⟨le_refl 0, by norm_num⟩

/-- Wrapping a bounded single-channel image keeps every sample (and
the out-of-pattern default) in range. -/
theorem monoToNDArray_bounded (dt : Dtype) (im : Image ℚ)
    (hb : ∀ i j, InU16Range (im.data i j)) :
    ∀ idx, InU16Range ((monoToNDArray dt im).data idx) := by
  intro idx
  rcases idx with _ | ⟨i, _ | ⟨j, _ | ⟨c, t⟩⟩⟩
  · exact zero_in_u16
  · exact zero_in_u16
  · exact hb i j
  · exact zero_in_u16

/-- Wrapping a componentwise-bounded 3-channel image keeps every
sample in range. -/
theorem colorToNDArray_bounded (dt : Dtype) (im : Image3)
    (hb : ∀ r c, InU16Range (im.data r c).1 ∧ InU16Range (im.data r c).2.1 ∧
      InU16Range (im.data r c).2.2) :
    ∀ idx, InU16Range ((colorToNDArray dt im).data idx) := by
  intro idx
  rcases idx with _ | ⟨i, _ | ⟨j, _ | ⟨c, t⟩⟩⟩
  · exact zero_in_u16
  · exact zero_in_u16
  · exact zero_in_u16
  · match c, t with
    | 0, [] => exact (hb i j).1
    | 1, [] => exact (hb i j).2.1
    | 2, [] => exact (hb i j).2.2
    | 0, (x :: t) => exact zero_in_u16
    | 1, (x :: t) => exact zero_in_u16
    | 2, (x :: t) => exact zero_in_u16
    | (n + 3), t => exact zero_in_u16

/-- Every image of a `__demosaicing_color` result has componentwise
in-range samples, given the debayer value contract. -/
theorem demosaicingColor_bounded {d : Debayer} (hd : OutputBounded d) (s : Suffix)
    (img : Image ℚ) :
    ∀ im ∈ demosaicingColor d s img, ∀ r c,
      InU16Range (im.data r c).1 ∧ InU16Range (im.data r c).2.1 ∧
      InU16Range (im.data r c).2.2 := by
  intro im him r c
  simp only [demosaicingColor, List.mem_cons, List.not_mem_nil, or_false] at him
  rcases him with h | h | h | h <;> subst h
  · exact ⟨orient_bounded hd s (bChannel (mpfaBGR d s img)) 0 r c,
           orient_bounded hd s (gChannel (mpfaBGR d s img)) 0 r c,
           orient_bounded hd s (rChannel (mpfaBGR d s img)) 0 r c⟩
  · exact ⟨orient_bounded hd s (bChannel (mpfaBGR d s img)) 1 r c,
           orient_bounded hd s (gChannel (mpfaBGR d s img)) 1 r c,
           orient_bounded hd s (rChannel (mpfaBGR d s img)) 1 r c⟩
  · exact ⟨orient_bounded hd s (bChannel (mpfaBGR d s img)) 2 r c,
           orient_bounded hd s (gChannel (mpfaBGR d s img)) 2 r c,
           orient_bounded hd s (rChannel (mpfaBGR d s img)) 2 r c⟩
  · exact ⟨orient_bounded hd s (bChannel (mpfaBGR d s img)) 3 r c,
           orient_bounded hd s (gChannel (mpfaBGR d s img)) 3 r c,
           orient_bounded hd s (rChannel (mpfaBGR d s img)) 3 r c⟩

/-- Every sample of every array returned by the integer demosaicing
path is in the uint16 range, given the debayer value contract. -/
theorem demosaicingUint_bounded {d : Debayer} (hd : OutputBounded d)
    (a : NDArray) (code : ColorConversionCode) (l : List NDArray)
    (hok : demosaicingUint d a code = .ok l) :
    ∀ b ∈ l, ∀ idx, InU16Range (b.data idx) := by
  unfold demosaicingUint at hok
  split at hok
  · split at hok
    · split at hok
      · injection hok with hok
        subst hok
        intro b hb idx
        simp only [List.mem_map] at hb
        obtain ⟨im, him, rfl⟩ := hb
        exact colorToNDArray_bounded _ _ (demosaicingColor_bounded hd _ _ im him) idx
      · injection hok with hok
        subst hok
        intro b hb idx
        simp only [List.mem_map] at hb
        obtain ⟨im, him, rfl⟩ := hb
        exact monoToNDArray_bounded _ _ (demosaicingMono_bounded hd _ _ im him) idx
    · exact absurd hok (by simp)
  · exact absurd hok (by simp)

/-- Every array returned by the integer demosaicing path carries the
processed input's dtype. -/
theorem demosaicingUint_dtype {d : Debayer} (a : NDArray)
    (code : ColorConversionCode) (l : List NDArray)
    (hok : demosaicingUint d a code = .ok l) :
    ∀ b ∈ l, b.dtype = a.dtype := by
  unfold demosaicingUint at hok
  split at hok
  · split at hok
    · split at hok <;>
      · injection hok with hok
        subst hok
        intro b hb
        simp only [List.mem_map] at hb
        obtain ⟨im, _, rfl⟩ := hb
        rfl
    · exact absurd hok (by simp)
  · exact absurd hok (by simp)

/-- The integer demosaicing path on a 2-D input returns exactly four
arrays whose first two shape entries equal the input's, given the
debayer size contract. -/
theorem demosaicingUint_shapes {d : Debayer} (hd : PreservesShape d)
    (a : NDArray) (h w : Nat) (code : ColorConversionCode) (hsh : a.shape = [h, w])
    (hdt : a.dtype = Dtype.uint8 ∨ a.dtype = Dtype.uint16) :
    ∃ l, demosaicingUint d a code = .ok l ∧ l.length = 4 ∧
      ∀ b ∈ l, b.shape.take 2 = [h, w] := by
  obtain ⟨hB1, hB2⟩ := hd code.suffix .BG (imageOf a h w)
  obtain ⟨hG1, hG2⟩ := hd code.suffix .GR (imageOf a h w)
  simp only [imageOf] at hB1 hB2 hG1 hG2
  rcases hdt with h8 | h16 <;> cases hc : code.is_color
  · refine ⟨(demosaicingMono d code.suffix (imageOf a h w)).map (monoToNDArray a.dtype),
      by simp [demosaicingUint, h8, hsh, hc], rfl, ?_⟩
    intro b hb
    simp only [demosaicingMono, List.map_cons, List.map_nil, List.mem_cons,
      List.not_mem_nil, or_false] at hb
    rcases hb with rfl | rfl | rfl | rfl <;>
      simp [monoToNDArray, bChannel, rChannel, hB1, hB2, hG1, hG2, imageOf]
  · refine ⟨(demosaicingColor d code.suffix (imageOf a h w)).map (colorToNDArray a.dtype),
      by simp [demosaicingUint, h8, hsh, hc], rfl, ?_⟩
    intro b hb
    simp only [demosaicingColor, List.map_cons, List.map_nil, List.mem_cons,
      List.not_mem_nil, or_false] at hb
    rcases hb with rfl | rfl | rfl | rfl <;>
      simp [colorToNDArray, colorOrient, imageOf]
  · refine ⟨(demosaicingMono d code.suffix (imageOf a h w)).map (monoToNDArray a.dtype),
      by simp [demosaicingUint, h16, hsh, hc], rfl, ?_⟩
    intro b hb
    simp only [demosaicingMono, List.map_cons, List.map_nil, List.mem_cons,
      List.not_mem_nil, or_false] at hb
    rcases hb with rfl | rfl | rfl | rfl <;>
      simp [monoToNDArray, bChannel, rChannel, hB1, hB2, hG1, hG2, imageOf]
  · refine ⟨(demosaicingColor d code.suffix (imageOf a h w)).map (colorToNDArray a.dtype),
      by simp [demosaicingUint, h16, hsh, hc], rfl, ?_⟩
    intro b hb
    simp only [demosaicingColor, List.map_cons, List.map_nil, List.mem_cons,
      List.not_mem_nil, or_false] at hb
    rcases hb with rfl | rfl | rfl | rfl <;>
      simp [colorToNDArray, colorOrient, imageOf]

/-- C3: for every even-dimensioned 2-D uint8/uint16 mosaic and every
recognized descriptor, demosaicing succeeds with exactly 4 images,
each with the same spatial dimensions (height, width) as the mosaic
(the color outputs additionally carry 3 channels). -/
theorem demosaicing_four_fullsize_images (d : Debayer) (hd : PreservesShape d)
    (a : NDArray) (h w : Nat) (code : ColorConversionCode)
    (hsh : a.shape = [h, w]) (hh : 2 ∣ h) (hw : 2 ∣ w)
    (hdt : a.dtype = Dtype.uint8 ∨ a.dtype = Dtype.uint16) :
    ∃ l, demosaicing d a (.valid code) = .ok l ∧ l.length = 4 ∧
      ∀ b ∈ l, b.shape.take 2 = [h, w] := by
  obtain ⟨l, hok, hlen, hsp⟩ := demosaicingUint_shapes hd a h w code hsh hdt
  refine ⟨l, ?_, hlen, hsp⟩
  have hnf : a.dtype ≠ Dtype.floating := by
    rcases hdt with h8 | h16
    · simp [h8]
    · simp [h16]
  simpa [demosaicing, hnf] using hok

/-- C3 witness: the concrete debayer `d0` on the 2×2 uint8 mosaic
`a0` with the monochrome bilinear descriptor. -/
theorem demosaicing_four_fullsize_images_witness :
    ∃ l, demosaicing d0 a0 (.valid ⟨false, .bilinear⟩) = .ok l ∧ l.length = 4 ∧
      ∀ b ∈ l, b.shape.take 2 = [2, 2] :=
  demosaicing_four_fullsize_images d0 d0_preserves_shape a0 2 2 ⟨false, .bilinear⟩
    rfl ⟨1, rfl⟩ ⟨1, rfl⟩ (Or.inl rfl)

/-- C1: on a 2-D uint8/uint16 mosaic with a monochrome descriptor
(any interpolation variant), demosaicing performs exactly two
full-image debayer passes, one with the "BG" pattern and one with the
"GR" pattern; the 0° and 90° images are the blue and red (non-green)
channels of the BG pass, the 45° and 135° images are the blue and red
channels of the GR pass, the green channels are discarded, and the
returned list is ordered [0°, 45°, 90°, 135°]. -/
theorem demosaicing_mono_two_pass_structure (d : Debayer) (a : NDArray)
    (h w : Nat) (s : Suffix) (hsh : a.shape = [h, w])
    (hdt : a.dtype = Dtype.uint8 ∨ a.dtype = Dtype.uint16) :
    demosaicing d a (.valid ⟨false, s⟩) =
      .ok [monoToNDArray a.dtype (bChannel (d s .BG (imageOf a h w))),
           monoToNDArray a.dtype (bChannel (d s .GR (imageOf a h w))),
           monoToNDArray a.dtype (rChannel (d s .BG (imageOf a h w))),
           monoToNDArray a.dtype (rChannel (d s .GR (imageOf a h w)))] := by
  rcases hdt with h8 | h16
  · simp [demosaicing, demosaicingUint, h8, hsh, demosaicingMono]
  · simp [demosaicing, demosaicingUint, h16, hsh, demosaicingMono]

/-- C1 witness: the structure theorem evaluated at the concrete
debayer `d0` and the concrete 2×2 uint8 mosaic `a0`. -/
theorem demosaicing_mono_two_pass_structure_witness :
    demosaicing d0 a0 (.valid ⟨false, .bilinear⟩) =
      .ok [monoToNDArray a0.dtype (bChannel (d0 .bilinear .BG (imageOf a0 2 2))),
           monoToNDArray a0.dtype (bChannel (d0 .bilinear .GR (imageOf a0 2 2))),
           monoToNDArray a0.dtype (rChannel (d0 .bilinear .BG (imageOf a0 2 2))),
           monoToNDArray a0.dtype (rChannel (d0 .bilinear .GR (imageOf a0 2 2)))] :=
  demosaicing_mono_two_pass_structure d0 a0 2 2 .bilinear rfl (Or.inl rfl)

/-- C6: the entry point rejects a non-`ColorConversionCode` `code`
argument with the descriptor `TypeError`, an unsupported dtype
(neither unsigned 8/16-bit nor floating) with the dtype `TypeError`,
and a non-2-D array of any accepted dtype (uint8, uint16, or floating,
the latter through the rescale path) with the shape `ValueError`; in
every failure case the result is the bare error — no partial list of
images is ever returned. -/
theorem demosaicing_validation_errors (d : Debayer) (a : NDArray) :
    demosaicing d a .invalid = .error .codeTypeError ∧
    (∀ code, a.dtype = Dtype.otherInt →
      demosaicing d a (.valid code) = .error .dtypeError) ∧
    (∀ code, (a.dtype = Dtype.uint8 ∨ a.dtype = Dtype.uint16 ∨ a.dtype = Dtype.floating) →
      a.shape.length ≠ 2 → demosaicing d a (.valid code) = .error .shapeError) := by
  refine ⟨rfl, ?_, ?_⟩
  · intro code hdt
    simp [demosaicing, demosaicingUint, hdt]
  · intro code hdt hlen
    rcases hdt with h | h | h <;>
      rcases hs : a.shape with _ | ⟨x, _ | ⟨y, _ | ⟨z, t⟩⟩⟩ <;>
      simp_all [demosaicing, demosaicingUint, Except.map]

/-- C6 witness: the three validation failures evaluated at concrete
inputs: an invalid descriptor, an int-typed frame, and a 3-D uint8
frame. -/
theorem demosaicing_validation_errors_witness :
    demosaicing d0 a0 .invalid = .error .codeTypeError ∧
    demosaicing d0 ⟨[2, 2], .otherInt, fun _ => 0⟩ (.valid ⟨false, .bilinear⟩) =
      .error .dtypeError ∧
    demosaicing d0 ⟨[2, 2, 2], .uint8, fun _ => 0⟩ (.valid ⟨false, .bilinear⟩) =
      .error .shapeError :=
  ⟨(demosaicing_validation_errors d0 a0).1,
   (demosaicing_validation_errors d0 ⟨[2, 2], .otherInt, fun _ => 0⟩).2.1 _ rfl,
   (demosaicing_validation_errors d0 ⟨[2, 2, 2], .uint8, fun _ => 0⟩).2.2 _
     (Or.inl rfl) (by norm_num)⟩

/-- Mapping an `Except` yields `ok` exactly when the underlying value
is `ok`. -/
theorem except_map_eq_ok {ε α β : Type} {f : α → β} {e : Except ε α} {y : β} :
    Except.map f e = .ok y ↔ ∃ x, e = .ok x ∧ y = f x := by
  cases e <;> simp [Except.map, eq_comm]

/-- C7: output dtype equals input dtype.  For uint8/uint16 inputs
every returned image carries the input dtype.  For a floating-point
input with positive maximum, the result is obtained by rescaling by
`65535 / max`, demosaicing as uint16, rescaling back and casting to
the input dtype, so every returned image carries the input dtype and
every sample lies in `[0, max]` — the input's dynamic range (the
rational model makes the documented rescale error exact). -/
theorem demosaicing_dtype_closure (d : Debayer) (hd : OutputBounded d)
    (a : NDArray) (code : ColorConversionCode) :
    (∀ l, (a.dtype = Dtype.uint8 ∨ a.dtype = Dtype.uint16) →
      demosaicing d a (.valid code) = .ok l → ∀ b ∈ l, b.dtype = a.dtype) ∧
    (a.dtype = Dtype.floating → 0 < maxVal a →
      ∀ l, demosaicing d a (.valid code) = .ok l → ∀ b ∈ l,
        b.dtype = a.dtype ∧ ∀ idx, 0 ≤ b.data idx ∧ b.data idx ≤ maxVal a) := by
  constructor
  · intro l hdt hok
    have hnf : a.dtype ≠ Dtype.floating := by
      rcases hdt with h8 | h16
      · simp [h8]
      · simp [h16]
    rw [show demosaicing d a (.valid code) = demosaicingUint d a code by
      simp [demosaicing, hnf]] at hok
    exact demosaicingUint_dtype a code l hok
  · intro hfl hmax l hok b hb
    have hscale : 0 < 65535 / maxVal a := div_pos (by norm_num) hmax
    simp only [demosaicing, hfl, if_true, reduceIte] at hok
    rw [except_map_eq_ok] at hok
    obtain ⟨l', hE, rfl⟩ := hok
    simp only [List.mem_map] at hb
    obtain ⟨b', hb', rfl⟩ := hb
    refine ⟨hfl.symm, ?_⟩
    intro idx
    have hr := demosaicingUint_bounded hd _ code l' hE b' hb' idx
    constructor
    · exact div_nonneg hr.1 hscale.le
    · have h1 : b'.data idx / (65535 / maxVal a) ≤ 65535 / (65535 / maxVal a) :=
        (div_le_div_iff_of_pos_right hscale).mpr hr.2
      have h2 : (65535 : ℚ) / (65535 / maxVal a) = maxVal a := by
        field_simp
      calc b'.data idx / (65535 / maxVal a) ≤ 65535 / (65535 / maxVal a) := h1
      _ = maxVal a := h2

/-- C7 witness: the floating branch evaluated at the concrete debayer
`d0` and the 2×2 all-ones floating frame `aF` (whose maximum is 1). -/
theorem demosaicing_dtype_closure_witness :
    (0 : ℚ) < maxVal aF ∧
    ∀ l, demosaicing d0 aF (.valid ⟨false, .bilinear⟩) = .ok l → ∀ b ∈ l,
      b.dtype = aF.dtype ∧ ∀ idx, 0 ≤ b.data idx ∧ b.data idx ≤ maxVal aF := by
  have hmax : (0 : ℚ) < maxVal aF := by decide
  exact ⟨hmax,
    (demosaicing_dtype_closure d0 d0_output_bounded aF ⟨false, .bilinear⟩).2 rfl hmax⟩

/-- Real remainder by a positive modulus lands in `[0, p)`. -/
theorem fmod_nonneg_lt (x p : ℝ) (hp : 0 < p) : 0 ≤ fmod x p ∧ fmod x p < p := by
  have hfr : fmod x p = p * Int.fract (x / p) := by
    unfold fmod
    rw [Int.fract, mul_sub, mul_div_cancel₀ _ hp.ne']
  constructor
  · rw [hfr]
    exact mul_nonneg hp.le (Int.fract_nonneg _)
  · rw [hfr]
    calc p * Int.fract (x / p) < p * 1 :=
          (mul_lt_mul_left hp).mpr (Int.fract_lt_one _)
    _ = p := mul_one p

/-- C5: for every Stokes image and pixel, `Imax - Imin = Specular`
exactly, and `Intensity = (Imax + Imin) / 2` (the real-valued model
makes the floating-point-tolerance statement exact). -/
theorem stokes_kernel_symmetry {ι : Type} (img : StokesImage ι) (p : ι) :
    cvtStokesToImax img p - cvtStokesToImin img p = cvtStokesToSpecular img p ∧
    cvtStokesToIntensity img p = (cvtStokesToImax img p + cvtStokesToImin img p) / 2 := by
  unfold cvtStokesToImax cvtStokesToImin cvtStokesToSpecular cvtStokesToIntensity
  constructor <;> ring

/-- C10: for every Stokes image and pixel, `Imin ≤ Intensity ≤ Imax`
and `Specular ≥ 0`, because the shared term `sqrt(S1² + S2²)` is
non-negative — with no assumption on the sign of `S0`. -/
theorem stokes_kernel_ordering {ι : Type} (img : StokesImage ι) (p : ι) :
    cvtStokesToImin img p ≤ cvtStokesToIntensity img p ∧
    cvtStokesToIntensity img p ≤ cvtStokesToImax img p ∧
    0 ≤ cvtStokesToSpecular img p := by
  have h : 0 ≤ Real.sqrt (img p 1 ^ 2 + img p 2 ^ 2) := Real.sqrt_nonneg _
  unfold cvtStokesToImin cvtStokesToIntensity cvtStokesToImax cvtStokesToSpecular
  refine ⟨by linarith, by linarith, h⟩

/-- C8: every pixel of `cvtStokesToAoLP`, computed as
`mod(0.5 * atan2(S2, S1), π)`, lies in `[0, π)`. -/
theorem aolp_range {ι : Type} (img : StokesImage ι) (p : ι) :
    0 ≤ cvtStokesToAoLP img p ∧ cvtStokesToAoLP img p < Real.pi := by
  unfold cvtStokesToAoLP
  exact fmod_nonneg_lt _ _ Real.pi_pos

/-- C9: `cvtStokesToDoLP` never raises: on the all-zero Stokes image
it returns `nan` (non-finite) at every pixel, and any pixel with
`S0 = 0` yields a non-finite value (`nan` or `+inf`). -/
theorem dolp_degenerate_nonfinite {ι : Type} :
    (∀ p : ι, cvtStokesToDoLP (fun _ _ => 0) p = FVal.nan) ∧
    (∀ (img : StokesImage ι) (p : ι), img p 0 = 0 →
      (cvtStokesToDoLP img p).finite? = false) := by
  constructor
  · intro p
    simp [cvtStokesToDoLP, fdiv, Real.sqrt_zero]
  · intro img p h0
    have hs : 0 ≤ Real.sqrt (img p 1 ^ 2 + img p 2 ^ 2) := Real.sqrt_nonneg _
    by_cases hz : Real.sqrt (img p 1 ^ 2 + img p 2 ^ 2) = 0
    · simp [cvtStokesToDoLP, fdiv, h0, hz, FVal.finite?]
    · have hpos : 0 < Real.sqrt (img p 1 ^ 2 + img p 2 ^ 2) := lt_of_le_of_ne hs (Ne.symm hz)
      simp [cvtStokesToDoLP, fdiv, h0, hz, hpos, FVal.finite?]

/-- C9 witness: a concrete pixel with `S0 = 0` and `(S1, S2) = (3, 4)`
produces a non-finite DoLP value. -/
theorem dolp_degenerate_nonfinite_witness :
    (cvtStokesToDoLP (fun _ : Unit => ![(0 : ℝ), 3, 4]) ()).finite? = false :=
  (dolp_degenerate_nonfinite (ι := Unit)).2 (fun _ => ![(0 : ℝ), 3, 4]) () (by simp)

/-! ### Theorems: Stokes least-squares fit -/

theorem sqNorm_nonneg {m : ℕ} (v : Fin m → ℝ) : 0 ≤ sqNorm v := by
  unfold sqNorm Matrix.dotProduct
  exact Finset.sum_nonneg fun _ _ => mul_self_nonneg _

theorem sqNorm_eq_zero_iff {m : ℕ} {v : Fin m → ℝ} : sqNorm v = 0 ↔ v = 0 :=
  Matrix.dotProduct_self_eq_zero

theorem sqNorm_add {m : ℕ} (u v : Fin m → ℝ) :
    sqNorm (u + v) = sqNorm u + 2 * Matrix.dotProduct u v + sqNorm v := by
  unfold sqNorm
  rw [Matrix.add_dotProduct, Matrix.dotProduct_add, Matrix.dotProduct_add,
    Matrix.dotProduct_comm v u]
  ring

open Matrix in
/-- Adjoint relation for the dot product: `⟨A u, w⟩ = ⟨u, Aᵀ w⟩`. -/
theorem dotProduct_mulVec_left {m n : ℕ} (A : Matrix (Fin m) (Fin n) ℝ)
    (u : Fin n → ℝ) (w : Fin m → ℝ) :
    Matrix.dotProduct (A.mulVec u) w = Matrix.dotProduct u (Aᵀ.mulVec w) := by
  rw [Matrix.dotProduct_comm, Matrix.dotProduct_mulVec, ← Matrix.mulVec_transpose,
    Matrix.dotProduct_comm]

open Matrix in
/-- The Penrose equations imply the normal equation `Aᵀ A P = Aᵀ`. -/
theorem penrose_normal {m n : ℕ} {A : Matrix (Fin m) (Fin n) ℝ}
    {P : Matrix (Fin n) (Fin m) ℝ} (h : IsMoorePenrose A P) :
    Aᵀ * (A * P) = Aᵀ := by
  have h1 := congrArg Matrix.transpose h.1
  rw [Matrix.transpose_mul, h.2.2.1] at h1
  exact h1

open Matrix in
/-- The residual of the pseudo-inverse solution is orthogonal to the
column space: `Aᵀ (A (P b) - b) = 0`. -/
theorem penrose_residual_orth {m n : ℕ} {A : Matrix (Fin m) (Fin n) ℝ}
    {P : Matrix (Fin n) (Fin m) ℝ} (h : IsMoorePenrose A P) (b : Fin m → ℝ) :
    Aᵀ.mulVec (A.mulVec (P.mulVec b) - b) = 0 := by
  rw [Matrix.mulVec_sub, Matrix.mulVec_mulVec, Matrix.mulVec_mulVec, Matrix.mul_assoc,
    penrose_normal h, sub_self]

/-- Orthogonal decomposition of the residual: for every candidate `x`,
`‖A x − b‖² = ‖A (P b) − b‖² + ‖A (x − P b)‖²`. -/
theorem penrose_lsq_decomp {m n : ℕ} {A : Matrix (Fin m) (Fin n) ℝ}
    {P : Matrix (Fin n) (Fin m) ℝ} (h : IsMoorePenrose A P) (b : Fin m → ℝ)
    (x : Fin n → ℝ) :
    sqNorm (A.mulVec x - b) =
      sqNorm (A.mulVec (P.mulVec b) - b) + sqNorm (A.mulVec (x - P.mulVec b)) := by
  have hsplit : A.mulVec x - b =
      (A.mulVec (P.mulVec b) - b) + A.mulVec (x - P.mulVec b) := by
    rw [Matrix.mulVec_sub]
    abel
  have hcross : Matrix.dotProduct (A.mulVec (P.mulVec b) - b)
      (A.mulVec (x - P.mulVec b)) = 0 := by
    rw [Matrix.dotProduct_comm, dotProduct_mulVec_left, penrose_residual_orth h,
      Matrix.dotProduct_zero]
  rw [hsplit, sqNorm_add, hcross]
  ring

open Matrix in
/-- Among all candidates whose image under `A` agrees with the
pseudo-inverse solution's, the pseudo-inverse solution has minimal
squared norm. -/
theorem penrose_min_norm {m n : ℕ} {A : Matrix (Fin m) (Fin n) ℝ}
    {P : Matrix (Fin n) (Fin m) ℝ} (h : IsMoorePenrose A P) (b : Fin m → ℝ)
    (x : Fin n → ℝ) (hx : A.mulVec x = A.mulVec (P.mulVec b)) :
    sqNorm (P.mulVec b) ≤ sqNorm x := by
  have hker : A.mulVec (x - P.mulVec b) = 0 := by
    rw [Matrix.mulVec_sub, hx, sub_self]
  have hSrow : P.mulVec b = (P * A).mulVec (P.mulVec b) := by
    conv_lhs => rw [← h.2.1]
    rw [← Matrix.mulVec_mulVec]
  have hcross : Matrix.dotProduct (P.mulVec b) (x - P.mulVec b) = 0 := by
    nth_rewrite 1 [hSrow]
    rw [dotProduct_mulVec_left, h.2.2.2, ← Matrix.mulVec_mulVec, hker,
      Matrix.mulVec_zero, Matrix.dotProduct_zero]
  have hx2 : P.mulVec b + (x - P.mulVec b) = x := by abel
  have e1 := sqNorm_add (P.mulVec b) (x - P.mulVec b)
  rw [hx2, hcross] at e1
  have := sqNorm_nonneg (x - P.mulVec b)
  linarith

/-- C2: `calcStokes` factors through a single matrix — the
pseudo-inverse of the stack of Mueller first rows, computed once and
shared by all pixels — applied to each pixel's intensity vector; and
whenever the pseudo-inverse primitive satisfies its Moore–Penrose
contract, every pixel's output is a least-squares solution of
`I = A · S` (over- or exactly determined case included) and has
minimal norm among all least-squares solutions (under-determined
case); no iteration is involved. -/
theorem calcStokes_pinv_least_squares {ι : Type} {m n : ℕ} [NeZero n]
    (pinv : Matrix (Fin m) (Fin n) ℝ → Matrix (Fin n) (Fin m) ℝ)
    (I : ι → Fin m → ℝ) (M : Fin m → Matrix (Fin n) (Fin n) ℝ)
    (hP : IsMoorePenrose (firstRows M) (pinv (firstRows M))) (p : ι) :
    calcStokes pinv I M p = (pinv (firstRows M)).mulVec (I p) ∧
    ∀ x : Fin n → ℝ,
      sqNorm ((firstRows M).mulVec (calcStokes pinv I M p) - I p) ≤
        sqNorm ((firstRows M).mulVec x - I p) ∧
      (sqNorm ((firstRows M).mulVec x - I p) =
          sqNorm ((firstRows M).mulVec (calcStokes pinv I M p) - I p) →
        sqNorm (calcStokes pinv I M p) ≤ sqNorm x) := by
  have hS : calcStokes pinv I M p = (pinv (firstRows M)).mulVec (I p) := rfl
  refine ⟨hS, fun x => ?_⟩
  rw [hS]
  have hdec := penrose_lsq_decomp hP (I p) x
  have hnn := sqNorm_nonneg ((firstRows M).mulVec (x - (pinv (firstRows M)).mulVec (I p)))
  constructor
  · linarith
  · intro heq
    have hker0 : sqNorm ((firstRows M).mulVec (x - (pinv (firstRows M)).mulVec (I p))) = 0 := by
      linarith
    have hker := sqNorm_eq_zero_iff.mp hker0
    rw [Matrix.mulVec_sub, sub_eq_zero] at hker
    exact penrose_min_norm hP (I p) x hker

/-- C2 witness: the 1×1 identity system `M = [1]`, `I = 5`, with the
identity as (correct) pseudo-inverse, compared against the candidate
`x = 3`. -/
theorem calcStokes_pinv_least_squares_witness :
    sqNorm ((firstRows (fun _ : Fin 1 => (1 : Matrix (Fin 1) (Fin 1) ℝ))).mulVec
        (calcStokes (fun _ => (1 : Matrix (Fin 1) (Fin 1) ℝ)) (fun _ _ => (5 : ℝ))
          (fun _ => 1) (0 : Fin 1)) -
      (fun _ => (5 : ℝ))) ≤
    sqNorm ((firstRows (fun _ : Fin 1 => (1 : Matrix (Fin 1) (Fin 1) ℝ))).mulVec
        (fun _ => (3 : ℝ)) - (fun _ => (5 : ℝ))) := by
  have hA : firstRows (fun _ : Fin 1 => (1 : Matrix (Fin 1) (Fin 1) ℝ)) = 1 := by
    ext i j
    fin_cases i
    fin_cases j
    simp [firstRows, Matrix.one_apply]
  have hP : IsMoorePenrose (firstRows (fun _ : Fin 1 => (1 : Matrix (Fin 1) (Fin 1) ℝ)))
      ((fun _ => (1 : Matrix (Fin 1) (Fin 1) ℝ))
        (firstRows (fun _ : Fin 1 => (1 : Matrix (Fin 1) (Fin 1) ℝ)))) := by
    rw [hA]
    exact ⟨by simp, by simp, by simp [Matrix.transpose_one], by simp [Matrix.transpose_one]⟩
  exact ((calcStokes_pinv_least_squares (fun _ => (1 : Matrix (Fin 1) (Fin 1) ℝ))
    (fun _ _ => (5 : ℝ)) (fun _ => 1) hP (0 : Fin 1)).2 (fun _ => 3)).1

/-! ### Theorems: linear Stokes fit consistency -/

theorem cos_double_45 : Real.cos (2 * (Real.pi / 4)) = 0 := by
  rw [show 2 * (Real.pi / 4) = Real.pi / 2 by ring, Real.cos_pi_div_two]

theorem sin_double_45 : Real.sin (2 * (Real.pi / 4)) = 1 := by
  rw [show 2 * (Real.pi / 4) = Real.pi / 2 by ring, Real.sin_pi_div_two]

theorem cos_double_90 : Real.cos (2 * (Real.pi / 2)) = -1 := by
  rw [show 2 * (Real.pi / 2) = Real.pi by ring, Real.cos_pi]

theorem sin_double_90 : Real.sin (2 * (Real.pi / 2)) = 0 := by
  rw [show 2 * (Real.pi / 2) = Real.pi by ring, Real.sin_pi]

theorem cos_double_135 : Real.cos (2 * (3 * Real.pi / 4)) = 0 := by
  rw [show 2 * (3 * Real.pi / 4) = Real.pi + Real.pi / 2 by ring, Real.cos_add,
    Real.cos_pi, Real.sin_pi, Real.cos_pi_div_two, Real.sin_pi_div_two]
  ring

theorem sin_double_135 : Real.sin (2 * (3 * Real.pi / 4)) = -1 := by
  rw [show 2 * (3 * Real.pi / 4) = Real.pi + Real.pi / 2 by ring, Real.sin_add,
    Real.cos_pi, Real.sin_pi, Real.cos_pi_div_two, Real.sin_pi_div_two]
  ring

/-- The measurement matrix `calcLinearStokes` builds for the angles
0°, 45°, 90°, 135° is the numeric matrix `Alin`. -/
theorem firstRows_linear :
    firstRows (fun k => truncate3 (polarizer (linAngles k))) = Alin := by
  ext k j
  fin_cases k <;> fin_cases j <;>
    simp [firstRows, truncate3, polarizer, linAngles, Alin, Matrix.submatrix_apply,
      Fin.castLE, Matrix.vecHead, Matrix.vecTail, Function.comp,
      cos_double_45, sin_double_45, cos_double_90, sin_double_90,
      cos_double_135, sin_double_135]

/-- `Alin` has full column rank. -/
theorem alin_inj : ∀ y : Fin 3 → ℝ, Alin.mulVec y = 0 → y = 0 := by
  intro y hy
  have h0 := congrFun hy 0
  have h1 := congrFun hy 1
  have h2 := congrFun hy 2
  have h3 := congrFun hy 3
  simp [Alin, Matrix.mulVec, Matrix.dotProduct, Fin.sum_univ_three] at h0 h1 h2 h3
  have e0 : y 0 = 0 := by linarith
  have e1 : y 1 = 0 := by linarith
  have e2 : y 2 = 0 := by linarith
  funext i
  fin_cases i
  · exact e0
  · exact e1
  · exact e2

open Matrix in
/-- A Moore–Penrose pseudo-inverse of an injective (full column rank)
matrix is a left inverse. -/
theorem penrose_left_inverse {m n : ℕ} {A : Matrix (Fin m) (Fin n) ℝ}
    {P : Matrix (Fin n) (Fin m) ℝ} (h : IsMoorePenrose A P)
    (hinj : ∀ y, A.mulVec y = 0 → y = 0) : P * A = 1 := by
  have hAQ : A * (P * A) = A := by rw [← Matrix.mul_assoc, h.1]
  have hvec : ∀ y : Fin n → ℝ, (P * A).mulVec y = y := by
    intro y
    have hk : A.mulVec ((P * A).mulVec y - y) = 0 := by
      rw [Matrix.mulVec_sub, Matrix.mulVec_mulVec, hAQ, sub_self]
    exact sub_eq_zero.mp (hinj _ hk)
  ext i j
  have hcol := congrFun (hvec (Pi.single j 1)) i
  simp only [Matrix.mulVec_single, mul_one] at hcol
  rw [Matrix.one_apply, hcol, Pi.single_apply]

open Matrix in
/-- `AlinPinv` is a left inverse of `Alin`. -/
theorem alinPinv_mul_alin : AlinPinv * Alin = 1 := by
  ext i j
  fin_cases i <;> fin_cases j <;>
    simp [Alin, AlinPinv, Matrix.mul_apply, Fin.sum_univ_succ] <;> norm_num

open Matrix in
/-- `Alin * AlinPinv` (the hat matrix) is symmetric. -/
theorem alin_mul_alinPinv_symm : (Alin * AlinPinv)ᵀ = Alin * AlinPinv := by
  ext i j
  fin_cases i <;> fin_cases j <;>
    simp [Alin, AlinPinv, Matrix.mul_apply, Fin.sum_univ_succ,
      Matrix.transpose_apply] <;> norm_num

/-- `AlinPinv` satisfies the four Penrose equations for `Alin`. -/
theorem alinPinv_penrose : IsMoorePenrose Alin AlinPinv := by
  refine ⟨?_, ?_, alin_mul_alinPinv_symm, ?_⟩
  · rw [Matrix.mul_assoc, alinPinv_mul_alin, Matrix.mul_one]
  · rw [alinPinv_mul_alin, Matrix.one_mul]
  · rw [alinPinv_mul_alin, Matrix.transpose_one]

/-- C4: whenever the pseudo-inverse primitive satisfies its
Moore–Penrose contract on the measurement matrix of the four angles
0°, 45°, 90°, 135°, `calcLinearStokes` applied to the synthetic stack
`I_k = S0 + S1·cos 2θ_k + S2·sin 2θ_k` recovers `(S0, S1, S2)`
exactly at every pixel (the real-valued model makes the
floating-point-tolerance statement exact). -/
theorem calcLinearStokes_linear_fit_consistency {ι : Type}
    (pinv : Matrix (Fin 4) (Fin 3) ℝ → Matrix (Fin 3) (Fin 4) ℝ)
    (hP : IsMoorePenrose (firstRows fun k => truncate3 (polarizer (linAngles k)))
      (pinv (firstRows fun k => truncate3 (polarizer (linAngles k)))))
    (S0 S1 S2 : ℝ) (p : ι) :
    calcLinearStokes pinv
      (fun _ k => S0 + S1 * Real.cos (2 * linAngles k) + S2 * Real.sin (2 * linAngles k))
      linAngles p = ![S0, S1, S2] := by
  rw [firstRows_linear] at hP
  have hQ : pinv Alin * Alin = 1 := penrose_left_inverse hP alin_inj
  have hI : (fun k => S0 + S1 * Real.cos (2 * linAngles k) + S2 * Real.sin (2 * linAngles k)) =
      Alin.mulVec ![S0, S1, S2] := by
    funext k
    fin_cases k <;>
      simp [Alin, Matrix.mulVec, Matrix.dotProduct, Fin.sum_univ_three, linAngles,
        cos_double_45, sin_double_45, cos_double_90, sin_double_90,
        cos_double_135, sin_double_135]
  show (pinv (firstRows fun k => truncate3 (polarizer (linAngles k)))).mulVec
      (fun k => S0 + S1 * Real.cos (2 * linAngles k) + S2 * Real.sin (2 * linAngles k)) =
      ![S0, S1, S2]
  rw [firstRows_linear, hI, Matrix.mulVec_mulVec, hQ, Matrix.one_mulVec]

/-- C4 witness: with the concrete pseudo-inverse `AlinPinv` and the
synthetic stack generated from `(S0, S1, S2) = (2, 3, 5)`, the linear
fit returns `(2, 3, 5)`. -/
theorem calcLinearStokes_linear_fit_consistency_witness :
    calcLinearStokes (fun _ => AlinPinv)
      (fun _ k => 2 + 3 * Real.cos (2 * linAngles k) + 5 * Real.sin (2 * linAngles k))
      linAngles (0 : Fin 1) = ![2, 3, 5] :=
  calcLinearStokes_linear_fit_consistency (fun _ => AlinPinv)
    (by rw [firstRows_linear]; exact alinPinv_penrose) 2 3 5 0

end Polanalyser
